import Mathlib

/-!
# History Path Engine — shallow embedding

This file embeds the history-path logic of the repository's
src/server/src/app.py: the story_root handler (lines 107-182) and the
story_page handler (lines 186-373).  A History record is a Python dict
with keys story, pages and last_updated; a user's history is the list
current_user.history.  Timestamps (datetime.now()) are modelled as
natural numbers; each request is processed with a single timestamp now
(the code calls datetime.now() several times inside one request; only
the equality structure of stored timestamps matters to the logic
modelled here, and distinct events are given distinct timestamps by the
theorems that need them).

Handlers perform no I/O in the modelled fragment other than loading and
saving current_user.history; they are embedded as pure functions from
the incoming event and the current collection to an optional
(collection, active index) pair, where the result none models an
uncaught Python exception (IndexError) aborting the request.
-/

namespace StoryEngine

/-- One History record: a dict with keys story, pages, last_updated
(see app.py lines 164-167: new_history is built with exactly these keys). -/
structure History where
  story : String
  pages : List String
  last_updated : Nat
deriving DecidableEq, Repr, Inhabited

/-- The matching condition of the find-or-create scans
(app.py lines 156, 263, 357):
history.story == story and history.pages[0] == page_id and len(history.pages) == 1.
For a record with non-empty pages this is exactly the Python condition;
Python would raise an IndexError on pages[0] for a record with empty
pages and matching story, where this proposition is simply false, so
theorems about this branch carry a non-empty-pages hypothesis. -/
def isRootMatch (story page_id : String) (h : History) : Prop :=
  h.story = story ∧ h.pages.head? = some page_id ∧ h.pages.length = 1

instance (story page_id : String) (h : History) :
    Decidable (isRootMatch story page_id h) := by
  unfold isRootMatch; infer_instance

/-- The indexed scan of app.py lines 154-160 (story_root) and 262-266
(story_page POST branch with empty history_id): every matching record
gets last_updated := now, the found flag is set, and history_id is
overwritten with the index of each match in turn, so the last matching
index wins.  The second argument is the value of the enumerate counter
at the head of the list. -/
def rootScan (now : Nat) (story page_id : String) :
    List History → Nat → List History × Bool × Option Nat
  | [], _ => ([], false, none)
  | h :: rest, i =>
    let r := rootScan now story page_id rest (i + 1)
    if isRootMatch story page_id h then
      ({h with last_updated := now} :: r.1, true, some (r.2.2.getD i))
    else
      (h :: r.1, r.2.1, r.2.2)

/-- app.py lines 153-169 (story_root) and 259-278 (story_page POST,
empty history_id): scan for a matching single-page history; if none is
found append a new record with pages = [page_id] and return the new
index len(history) - 1, otherwise return the index recorded by the
scan. -/
def findOrCreateRoot (now : Nat) (story page_id : String)
    (hs : List History) : List History × Option Nat :=
  let r := rootScan now story page_id hs 0
  if r.2.1 then (r.1, r.2.2)
  else (r.1 ++ [⟨story, [page_id], now⟩], some r.1.length)

/-- The scan of app.py lines 354-359 (story_page GET branch): same
condition and same mutation as rootScan, but the loop does not use
enumerate and records no index. -/
def externalScan (now : Nat) (story page_id : String) :
    List History → List History × Bool
  | [] => ([], false)
  | h :: rest =>
    let r := externalScan now story page_id rest
    if isRootMatch story page_id h then
      ({h with last_updated := now} :: r.1, true)
    else
      (h :: r.1, r.2)

/-- app.py lines 351-373 (story_page GET branch, non-preview,
non-guest): find-or-create a single-page history; the rendered response
(line 373) carries no history index at all, so the active index is
none. -/
def externalVisitStep (now : Nat) (story page_id : String)
    (hs : List History) : List History × Option Nat :=
  let r := externalScan now story page_id hs
  (if r.2 then r.1 else r.1 ++ [⟨story, [page_id], now⟩], none)

/-- The fork-path copy loop of app.py lines 300-304:
for p in pages: new_pages.append(p); if p == prev_page_id: break.
The result is the prefix of pages up to and including the first
occurrence of prev_page_id, or all of pages when prev_page_id does not
occur. -/
def forkPages (prev_page_id : String) : List String → List String
  | [] => []
  | p :: rest =>
    if p = prev_page_id then [p] else p :: forkPages prev_page_id rest

/-- One execution of the inner loop of the merge pass, app.py lines
314-323, as a fuel-indexed iteration.  The Python loop is
for h2 in current_user.history, over a list being mutated in place:
the list iterator keeps a cursor j and at each step checks
j < len(list) against the current list, yields list[j], and increments
j.  h1 is the dict object yielded by the outer enumerate; its current
position in the list is tracked as h1pos (list.remove never removes the
h1 object itself because the branch requires h1 != h2 by value, and
remove deletes the first element equal to h2 by value).  When the
branch fires: list.remove(h2) deletes the element at the first index
whose value equals the current value of h2; then the assignment
h1[last_updated] = now mutates the h1 object in place, i.e. updates
the element at h1pos of the shrunken list; then history_id = index
stores the outer enumerate counter.  The condition
h1 != h2 and len(h1.pages) == len(h2.pages) followed by the elementwise
comparison loop is equivalent to h1 ≠ h2 ∧ h1.pages = h2.pages.
The fuel n is exact: the loop performs at most one iteration per unit
of fuel, and the callers pass list.length, which bounds the number of
iterations since j increases by one per iteration and len(list) never
grows. -/
def mergeInnerGo (now : Nat) :
    Nat → List History → Nat → Nat → Nat → Nat → List History × Nat × Nat
  | 0, list, h1pos, _, hid, _ => (list, h1pos, hid)
  | n + 1, list, h1pos, j, hid, outerIdx =>
    if j < list.length then
      let h1v := list.getD h1pos default
      let h2v := list.getD j default
      if h1v ≠ h2v ∧ h1v.pages = h2v.pages then
        let ridx := list.findIdx fun h => decide (h = h2v)
        let list' := list.eraseIdx ridx
        let h1pos' := if ridx < h1pos then h1pos - 1 else h1pos
        let list'' := list'.set h1pos' {h1v with last_updated := now}
        mergeInnerGo now n list'' h1pos' (j + 1) outerIdx outerIdx
      else
        mergeInnerGo now n list h1pos (j + 1) hid outerIdx
    else (list, h1pos, hid)

/-- The outer loop of the merge pass, app.py line 313:
for index, h1 in enumerate(current_user.history) over the list being
mutated by the inner loop; the enumerate cursor k checks
k < len(list) against the current list at each step.  Fuel as in
mergeInnerGo. -/
def mergeOuterGo (now : Nat) :
    Nat → List History → Nat → Nat → List History × Nat
  | 0, list, _, hid => (list, hid)
  | n + 1, list, k, hid =>
    if k < list.length then
      let r := mergeInnerGo now list.length list k 0 hid k
      mergeOuterGo now n r.1 (k + 1) r.2.2
    else (list, hid)

/-- The duplicate-history merge pass, app.py lines 311-323, run after a
structural mutation (extension or fork); takes and returns the
provisional history_id. -/
def mergePass (now : Nat) (list : List History) (hid : Nat) :
    List History × Nat :=
  mergeOuterGo now list.length list 0 hid

/-- The POST branch of story_page, app.py lines 241-349, for a
logged-in user (the guest test of line 248 is handled by the caller,
processEvent).  history_id = none models the empty form field (line
259).  With a supplied history_id, line 283 indexes
current_user.history[history_id]: an out-of-range index raises an
IndexError, modelled as none.  The forward branch (lines 286-331):
replay if page_id already occurs in the history (line 288 / 328),
otherwise extension when prev_page_id equals the tip pages[-1] (lines
290-293) or fork (lines 298-309), followed by the merge pass (lines
311-323).  pages[-1] on a record with empty pages would raise in
Python; the model compares getLast? with some prev_page_id, which is
false there, so theorems touching this branch assume non-empty pages.
The backward branch (lines 334-336) is pass.  After either branch the
back-pointer block (lines 338-346) reads
current_user.history[history_id].pages; a history_id left stale (out of
range) by the merge pass raises an IndexError there, modelled as none
(the save of line 331 has already happened at that point; no claim in
this development depends on that distinction). -/
def linkedVisitStep (now : Nat) (story page_id prev_page_id : String)
    (history_id : Option Nat) (forward : Bool) (hs : List History) :
    Option (List History × Option Nat) :=
  match history_id with
  | none => some (findOrCreateRoot now story page_id hs)
  | some i =>
    if hi : i < hs.length then
      let h := hs[i]
      if forward then
        if page_id ∈ h.pages then
          some (hs.set i {h with last_updated := now}, some i)
        else
          let step :=
            if h.pages.getLast? = some prev_page_id then
              (hs.set i {h with pages := h.pages ++ [page_id], last_updated := now}, i)
            else
              (hs ++ [⟨h.story, forkPages prev_page_id h.pages ++ [page_id],
                      now⟩], hs.length)
          let merged := mergePass now step.1 step.2
          if merged.2 < merged.1.length then some (merged.1, some merged.2)
          else none
      else
        some (hs, some i)
    else none

/-- A navigation event.  rootVisit carries the root page id already
resolved from the story document (app.py line 125); linkedVisit is the
POST branch of story_page with the form fields of lines 242-244
(forward is the truthiness of the forward field); externalVisit is the
GET branch of story_page. -/
inductive Event where
  | rootVisit (story page_id : String)
  | linkedVisit (story page_id prev_page_id : String)
      (history_id : Option Nat) (forward : Bool)
  | externalVisit (story page_id : String)
deriving DecidableEq, Repr

/-- Whether an event is a linked (POST) visit. -/
def Event.isLinked : Event → Bool
  | .linkedVisit _ _ _ _ _ => true
  | _ => false

/-- One request against the engine.  story_root guards its history
mutation with "if not preview and not guest" (line 143) and otherwise
leaves history_id = None; the GET branch of story_page does the same
(line 353) and never returns an index; the POST branch of story_page
checks only "if not guest" (line 248) — preview is NOT consulted there —
and for a guest performs no history computation (the template is handed
back the raw client field, not an engine-computed index, modelled as
none). -/
def processEvent (preview guest : Bool) (now : Nat) (e : Event)
    (hs : List History) : Option (List History × Option Nat) :=
  match e with
  | .rootVisit story page_id =>
    if preview || guest then some (hs, none)
    else some (findOrCreateRoot now story page_id hs)
  | .externalVisit story page_id =>
    if preview || guest then some (hs, none)
    else some (externalVisitStep now story page_id hs)
  | .linkedVisit story page_id prev_page_id history_id forward =>
    if guest then some (hs, none)
    else linkedVisitStep now story page_id prev_page_id history_id forward hs

/-- The record invariant of the spec data model: pages is non-empty and
contains no repeated page id. -/
def Inv (hs : List History) : Prop :=
  ∀ h ∈ hs, h.pages ≠ [] ∧ h.pages.Nodup

instance (hs : List History) : Decidable (Inv hs) := by
  unfold Inv; infer_instance

/-- No two records of the collection have equal pages sequences (the
merge pass of the code compares only pages, never story). -/
def distinctPages (hs : List History) : Prop :=
  (hs.map History.pages).Nodup

instance (hs : List History) : Decidable (distinctPages hs) := by
  unfold distinctPages; infer_instance

/-- The spec's phrasing of a matching single-page history: same story
and pages exactly [page_id]. -/
def claimMatch (story page_id : String) (h : History) : Prop :=
  h.story = story ∧ h.pages = [page_id]

instance (story page_id : String) (h : History) :
    Decidable (claimMatch story page_id h) := by
  unfold claimMatch; infer_instance

/-- The per-record effect of the find-or-create scans: a matching
record gets its timestamp refreshed, any other record is untouched. -/
def rootUpd (now : Nat) (story page_id : String) (h : History) : History :=
  if isRootMatch story page_id h then {h with last_updated := now} else h

/-- The code's scan condition coincides with the spec's phrasing:
pages[0] == page_id together with len(pages) == 1 says pages = [page_id]. -/
theorem isRootMatch_iff (story page_id : String) (h : History) :
    isRootMatch story page_id h ↔ claimMatch story page_id h := by
  unfold isRootMatch claimMatch
  constructor
  · rintro ⟨h1, h2, h3⟩
    refine ⟨h1, ?_⟩
    match hp : h.pages, h2, h3 with
    | [x], hh2, _ => simp only [List.head?_cons, Option.some.injEq] at hh2; simp [hh2]
  · rintro ⟨h1, h2⟩
    exact ⟨h1, by simp [h2], by simp [h2]⟩

/-- getD at an index inside the list is the element there. -/
theorem getD_lt {α : Type} [Inhabited α] {l : List α} {n : Nat}
    (h : n < l.length) (d : α) : l.getD n d = l[n] := by
  simp [List.getD_eq_getElem?_getD, List.getElem?_eq_getElem h]

/-- Records at distinct positions of a distinct-pages collection have
different pages sequences. -/
theorem distinctPages_pages_ne {hs : List History} (hd : distinctPages hs)
    {p q : Nat} (hp : p < hs.length) (hq : q < hs.length) (hne : p ≠ q) :
    hs[p].pages ≠ hs[q].pages := by
  intro heq
  unfold distinctPages at hd
  have hp' : p < (hs.map History.pages).length := by simpa using hp
  have hq' : q < (hs.map History.pages).length := by simpa using hq
  have : (hs.map History.pages)[p] = (hs.map History.pages)[q] := by
    simpa using heq
  exact hne ((hd.getElem_inj_iff).mp this)

/-- When no two records of the list have equal pages sequences, no
iteration of the inner merge loop fires, and the loop returns its
arguments unchanged. -/
theorem mergeInnerGo_id (now : Nat) (n : Nat) :
    ∀ (list : List History) (h1pos j hid k : Nat),
      distinctPages list → h1pos < list.length →
      mergeInnerGo now n list h1pos j hid k = (list, h1pos, hid) := by
  induction n with
  | zero => intro list h1pos j hid k _ _; rfl
  | succ n ih =>
    intro list h1pos j hid k hd hp
    rw [mergeInnerGo]
    by_cases hj : j < list.length
    · rw [if_pos hj]
      have h1d : list.getD h1pos default = list[h1pos] := getD_lt hp default
      have h2d : list.getD j default = list[j] := getD_lt hj default
      by_cases hpj : h1pos = j
      · have : ¬(list.getD h1pos default ≠ list.getD j default ∧
            (list.getD h1pos default).pages = (list.getD j default).pages) := by
          subst hpj; simp
        rw [if_neg this]
        exact ih list h1pos (j + 1) hid k hd hp
      · have : ¬(list.getD h1pos default ≠ list.getD j default ∧
            (list.getD h1pos default).pages = (list.getD j default).pages) := by
          rw [h1d, h2d]
          rintro ⟨-, hpages⟩
          exact distinctPages_pages_ne hd hp hj hpj hpages
        rw [if_neg this]
        exact ih list h1pos (j + 1) hid k hd hp
    · rw [if_neg hj]

/-- When no two records of the list have equal pages sequences, the
outer merge loop returns its arguments unchanged. -/
theorem mergeOuterGo_id (now : Nat) (n : Nat) :
    ∀ (list : List History) (k hid : Nat), distinctPages list →
      mergeOuterGo now n list k hid = (list, hid) := by
  induction n with
  | zero => intro list k hid _; rfl
  | succ n ih =>
    intro list k hid hd
    rw [mergeOuterGo]
    by_cases hk : k < list.length
    · rw [if_pos hk, mergeInnerGo_id now list.length list k 0 hid k hd hk]
      exact ih list (k + 1) hid hd
    · rw [if_neg hk]

/-- The merge pass leaves a collection without duplicate pages
sequences, and the provisional active index, unchanged. -/
theorem mergePass_id (now : Nat) (list : List History) (hid : Nat)
    (hd : distinctPages list) : mergePass now list hid = (list, hid) :=
  mergeOuterGo_id now list.length list 0 hid hd

/-- The inner merge loop only removes records and refreshes timestamps:
any property of the pages sequences alone that holds of every record of
the input holds of every record of the output. -/
theorem mergeInnerGo_pages (Q : List String → Prop) (now : Nat) (n : Nat) :
    ∀ (list : List History) (h1pos j hid k : Nat),
      (∀ h ∈ list, Q h.pages) →
      ∀ h ∈ (mergeInnerGo now n list h1pos j hid k).1, Q h.pages := by
  induction n with
  | zero => intro list h1pos j hid k hq; exact hq
  | succ n ih =>
    intro list h1pos j hid k hq
    rw [mergeInnerGo]
    by_cases hj : j < list.length
    · rw [if_pos hj]
      by_cases hc : list.getD h1pos default ≠ list.getD j default ∧
          (list.getD h1pos default).pages = (list.getD j default).pages
      · rw [if_pos hc]
        apply ih
        -- every record of the list after remove-and-restamp satisfies Q
        intro h hmem
        by_cases hp : h1pos < list.length
        · rcases List.mem_or_eq_of_mem_set hmem with hmem' | rfl
          · exact hq h ((List.eraseIdx_sublist _ _).mem hmem')
          · show Q (list.getD h1pos default).pages
            rw [getD_lt hp default]
            exact hq _ (List.getElem_mem hp)
        · -- h1pos out of range: the restamp targets an index past the
          -- end of the shrunken list, so the set is the identity and the
          -- member comes from the erased list.
          have h2mem : list.getD j default ∈ list := by
            rw [getD_lt hj default]; exact List.getElem_mem hj
          have hfind : list.findIdx (fun h => decide (h = list.getD j default))
              < list.length :=
            List.findIdx_lt_length_of_exists ⟨_, h2mem, by simp⟩
          have hr : list.findIdx (fun h => decide (h = list.getD j default))
              < h1pos := lt_of_lt_of_le hfind (le_of_not_lt hp)
          rw [if_pos hr] at hmem
          have hlen : (list.eraseIdx
              (list.findIdx (fun h => decide (h = list.getD j default)))).length
              = list.length - 1 := List.length_eraseIdx_of_lt hfind
          have hle : (list.eraseIdx
              (list.findIdx (fun h => decide (h = list.getD j default)))).length
              ≤ h1pos - 1 := by omega
          rw [List.set_eq_of_length_le hle] at hmem
          exact hq h ((List.eraseIdx_sublist _ _).mem hmem)
      · rw [if_neg hc]
        exact ih list h1pos (j + 1) hid k hq
    · rw [if_neg hj]
      exact hq

/-- Outer-loop version of mergeInnerGo_pages. -/
theorem mergeOuterGo_pages (Q : List String → Prop) (now : Nat) (n : Nat) :
    ∀ (list : List History) (k hid : Nat),
      (∀ h ∈ list, Q h.pages) →
      ∀ h ∈ (mergeOuterGo now n list k hid).1, Q h.pages := by
  induction n with
  | zero => intro list k hid hq; exact hq
  | succ n ih =>
    intro list k hid hq
    rw [mergeOuterGo]
    by_cases hk : k < list.length
    · rw [if_pos hk]
      exact ih _ _ _ (mergeInnerGo_pages Q now list.length list k 0 hid k hq)
    · rw [if_neg hk]
      exact hq

/-- The merge pass only removes records and refreshes timestamps: any
property of the pages sequences alone survives it. -/
theorem mergePass_pages (Q : List String → Prop) (now : Nat)
    (list : List History) (hid : Nat) (hq : ∀ h ∈ list, Q h.pages) :
    ∀ h ∈ (mergePass now list hid).1, Q h.pages :=
  mergeOuterGo_pages Q now list.length list 0 hid hq

/-- The fork copy loop produces a sublist (in fact a prefix) of the
source pages. -/
theorem forkPages_sublist (prev_page_id : String) (l : List String) :
    List.Sublist (forkPages prev_page_id l) l := by
  induction l with
  | nil => simp [forkPages]
  | cons p rest ih =>
    rw [forkPages]
    by_cases hp : p = prev_page_id
    · rw [if_pos hp]
      exact (List.nil_sublist rest).cons₂ p
    · rw [if_neg hp]
      exact ih.cons₂ p

/-- When prev_page_id does not occur, the break never fires and
the fork copies the whole path. -/
theorem forkPages_of_not_mem {prev_page_id : String} {l : List String}
    (h : prev_page_id ∉ l) : forkPages prev_page_id l = l := by
  induction l with
  | nil => rfl
  | cons p rest ih =>
    rw [forkPages]
    have hp : p ≠ prev_page_id := fun he => h (he ▸ List.mem_cons_self p rest)
    rw [if_neg hp]
    rw [ih (fun hm => h (List.mem_cons_of_mem p hm))]

/-- When prev_page_id occurs, the fork copies the prefix up to and
including its first occurrence. -/
theorem forkPages_eq_take {prev_page_id : String} {l : List String}
    (h : prev_page_id ∈ l) :
    forkPages prev_page_id l
      = l.take (l.findIdx (fun p => decide (p = prev_page_id)) + 1) := by
  induction l with
  | nil => cases h
  | cons p rest ih =>
    rw [forkPages, List.findIdx_cons]
    by_cases hp : p = prev_page_id
    · rw [if_pos hp]
      simp [hp]
    · rw [if_neg hp]
      have hrest : prev_page_id ∈ rest := by
        rcases List.mem_cons.mp h with he | hm
        · exact absurd he.symm hp
        · exact hm
      simp [List.findIdx_cons, hp, ih hrest]

/-- rootUpd never changes the pages of a record. -/
theorem rootUpd_pages (now : Nat) (story page_id : String) (h : History) :
    (rootUpd now story page_id h).pages = h.pages := by
  unfold rootUpd; split <;> rfl

/-- rootUpd never changes the story of a record. -/
theorem rootUpd_story (now : Nat) (story page_id : String) (h : History) :
    (rootUpd now story page_id h).story = h.story := by
  unfold rootUpd; split <;> rfl

/-- The collection component of the indexed scan: each matching record
restamped, everything else untouched. -/
theorem rootScan_fst (now : Nat) (story page_id : String) :
    ∀ (hs : List History) (i : Nat),
      (rootScan now story page_id hs i).1 = hs.map (rootUpd now story page_id) := by
  intro hs
  induction hs with
  | nil => intro i; rfl
  | cons h rest ih =>
    intro i
    rw [rootScan, List.map_cons]
    by_cases hm : isRootMatch story page_id h
    · rw [if_pos hm]
      simp only [rootUpd, if_pos hm, ih]
    · rw [if_neg hm]
      simp only [rootUpd, if_neg hm, ih]

/-- The found flag of the indexed scan. -/
theorem rootScan_found (now : Nat) (story page_id : String) :
    ∀ (hs : List History) (i : Nat),
      (rootScan now story page_id hs i).2.1
        = hs.any fun h => decide (isRootMatch story page_id h) := by
  intro hs
  induction hs with
  | nil => intro i; rfl
  | cons h rest ih =>
    intro i
    rw [rootScan, List.any_cons]
    by_cases hm : isRootMatch story page_id h
    · rw [if_pos hm]; simp [hm]
    · rw [if_neg hm]; simp [hm, ih]

/-- A scan over a collection with no matching record changes nothing
and reports nothing. -/
theorem rootScan_nomatch (now : Nat) (story page_id : String) :
    ∀ (hs : List History) (i : Nat),
      (∀ h ∈ hs, ¬ isRootMatch story page_id h) →
      rootScan now story page_id hs i = (hs, false, none) := by
  intro hs
  induction hs with
  | nil => intro i _; rfl
  | cons h rest ih =>
    intro i hno
    rw [rootScan]
    rw [if_neg (hno h (List.mem_cons_self h rest))]
    rw [ih (i + 1) fun h' hm => hno h' (List.mem_cons_of_mem h hm)]

/-- A scan over a collection with exactly one matching record, at
position c₁.length, restamps it and reports its index (offset by the
initial enumerate counter). -/
theorem rootScan_unique (now : Nat) (story page_id : String)
    (hm : History) (hmatch : isRootMatch story page_id hm)
    (c₂ : List History) (h₂ : ∀ h ∈ c₂, ¬ isRootMatch story page_id h) :
    ∀ (c₁ : List History) (i : Nat),
      (∀ h ∈ c₁, ¬ isRootMatch story page_id h) →
      rootScan now story page_id (c₁ ++ hm :: c₂) i
        = (c₁ ++ {hm with last_updated := now} :: c₂, true,
           some (i + c₁.length)) := by
  intro c₁
  induction c₁ with
  | nil =>
    intro i _
    simp only [List.nil_append, List.length_nil, Nat.add_zero]
    rw [rootScan, if_pos hmatch, rootScan_nomatch now story page_id c₂ (i + 1) h₂]
    rfl
  | cons a c₁ ih =>
    intro i hno
    simp only [List.cons_append]
    rw [rootScan, if_neg (hno a (List.mem_cons_self a _))]
    rw [ih (i + 1) fun h' hmem => hno h' (List.mem_cons_of_mem a hmem)]
    simp only [List.length_cons]
    refine congrArg _ (congrArg _ (congrArg _ ?_))
    omega

/-- The GET-branch scan mutates the collection exactly as the indexed
scan does. -/
theorem externalScan_fst (now : Nat) (story page_id : String) :
    ∀ hs : List History,
      (externalScan now story page_id hs).1
        = hs.map (rootUpd now story page_id) := by
  intro hs
  induction hs with
  | nil => rfl
  | cons h rest ih =>
    rw [externalScan, List.map_cons]
    by_cases hm : isRootMatch story page_id h
    · rw [if_pos hm]; simp only [rootUpd, if_pos hm, ih]
    · rw [if_neg hm]; simp only [rootUpd, if_neg hm, ih]

/-- The GET-branch scan finds a match exactly when the indexed scan
does. -/
theorem externalScan_found (now : Nat) (story page_id : String) :
    ∀ hs : List History,
      (externalScan now story page_id hs).2
        = hs.any fun h => decide (isRootMatch story page_id h) := by
  intro hs
  induction hs with
  | nil => rfl
  | cons h rest ih =>
    rw [externalScan, List.any_cons]
    by_cases hm : isRootMatch story page_id h
    · rw [if_pos hm]; simp [hm]
    · rw [if_neg hm]; simp [hm, ih]

/-- Collection component of find-or-create: restamp matches; append a
fresh single-page record when there is no match. -/
theorem findOrCreateRoot_fst (now : Nat) (story page_id : String)
    (hs : List History) :
    (findOrCreateRoot now story page_id hs).1
      = if hs.any (fun h => decide (isRootMatch story page_id h)) = true then
          hs.map (rootUpd now story page_id)
        else hs.map (rootUpd now story page_id) ++ [⟨story, [page_id], now⟩] := by
  simp only [findOrCreateRoot]
  rw [rootScan_found, rootScan_fst]
  split <;> rfl

/-- Find-or-create on a collection with no matching record appends the
new record and reports the new last index. -/
theorem findOrCreateRoot_nomatch (now : Nat) (story page_id : String)
    (hs : List History) (hno : ∀ h ∈ hs, ¬ isRootMatch story page_id h) :
    findOrCreateRoot now story page_id hs
      = (hs ++ [⟨story, [page_id], now⟩], some hs.length) := by
  simp only [findOrCreateRoot]
  rw [rootScan_nomatch now story page_id hs 0 hno]
  rfl

/-- Find-or-create on a collection with exactly one matching record
restamps it and returns its index. -/
theorem findOrCreateRoot_unique (now : Nat) (story page_id : String)
    (c₁ : List History) (hm : History) (c₂ : List History)
    (hmatch : isRootMatch story page_id hm)
    (h₁ : ∀ h ∈ c₁, ¬ isRootMatch story page_id h)
    (h₂ : ∀ h ∈ c₂, ¬ isRootMatch story page_id h) :
    findOrCreateRoot now story page_id (c₁ ++ hm :: c₂)
      = (c₁ ++ {hm with last_updated := now} :: c₂, some c₁.length) := by
  unfold findOrCreateRoot
  rw [rootScan_unique now story page_id hm hmatch c₂ h₂ c₁ 0 h₁]
  simp

/-- The GET branch performs the same collection update as the root
branch but returns no active index. -/
theorem externalVisitStep_eq (now : Nat) (story page_id : String)
    (hs : List History) :
    externalVisitStep now story page_id hs
      = ((findOrCreateRoot now story page_id hs).1, none) := by
  simp only [externalVisitStep]
  rw [externalScan_fst, externalScan_found, findOrCreateRoot_fst]

/-- C1: evaluation of the engine at a collection holding two
value-identical records for the same story.  The merge test of app.py
line 315 requires h1 != h2, a comparison of whole records including
last_updated, so the two equal records are never considered a duplicate
pair: after the forward visit extends the third record and the merge
pass completes, the collection still contains two History records with
the same story and identical pages sequences, contradicting the claim
that no equivalent pair remains. -/
theorem merge_pass_leaves_equal_duplicates :
    processEvent false false 10 (.linkedVisit "s" "C" "B" (some 2) true)
        [⟨"s", ["A"], 5⟩, ⟨"s", ["A"], 5⟩, ⟨"s", ["B"], 6⟩]
      = some ([⟨"s", ["A"], 5⟩, ⟨"s", ["A"], 5⟩, ⟨"s", ["B", "C"], 10⟩], some 2)
    ∧ ([⟨"s", ["A"], 5⟩, ⟨"s", ["A"], 5⟩,
        ⟨"s", ["B", "C"], 10⟩] : List History).countP
          (fun h => decide (claimMatch "s" "A" h)) = 2 := by
  constructor
  · decide
  · decide

/-- C2: evaluation of the engine at a collection holding records of two
different stories with coinciding pages sequences after an extension.
The merge test of app.py lines 315-319 compares only the pages lists,
never the story field, so the record of story s2 is removed in favour of
the extended record of story s1, contradicting the claim that records of
different stories are never merged. -/
theorem merge_pass_merges_across_stories :
    processEvent false false 10 (.linkedVisit "s1" "B" "A" (some 0) true)
        [⟨"s1", ["A"], 1⟩, ⟨"s2", ["A", "B"], 2⟩]
      = some ([⟨"s1", ["A", "B"], 10⟩], some 0)
    ∧ (⟨"s2", ["A", "B"], 2⟩ : History)
        ∉ ([⟨"s1", ["A", "B"], 10⟩] : List History) := by
  constructor
  · decide
  · decide

/-- C3 counterexample: a linked (POST) visit with preview = true and
guest = false mutates the collection and returns an active index — the
POST branch of story_page checks only guest (app.py line 248), never
preview, so the claim fails for linked visits. -/
theorem preview_linked_visit_mutates :
    processEvent true false 10 (.linkedVisit "s" "B" "A" (some 0) true)
        [⟨"s", ["A"], 1⟩]
      = some ([⟨"s", ["A", "B"], 10⟩], some 0)
    ∧ ([⟨"s", ["A", "B"], 10⟩] : List History) ≠ [⟨"s", ["A"], 1⟩] := by
  constructor
  · decide
  · decide

/-- C3 amended: any event with guest = true, and any root or external
visit with preview = true, leaves the collection unchanged and returns
no active index; preview alone does not suppress mutation on a linked
(POST) visit. -/
theorem guest_or_preview_noop (preview guest : Bool) (now : Nat)
    (e : Event) (hs : List History)
    (hcase : guest = true ∨ (preview = true ∧ e.isLinked = false)) :
    processEvent preview guest now e hs = some (hs, none) := by
  rcases hcase with hg | ⟨hp, hl⟩
  · subst hg
    cases e <;> simp [processEvent]
  · subst hp
    cases e <;> simp_all [processEvent, Event.isLinked]

/-- Witness for the amended C3 at concrete inputs: a guest linked visit
and a preview root visit are both no-ops. -/
theorem guest_or_preview_noop_witness :
    processEvent false true 3 (.linkedVisit "s" "B" "A" (some 0) true)
        [⟨"s", ["A"], 1⟩] = some ([⟨"s", ["A"], 1⟩], none)
    ∧ processEvent true false 3 (.rootVisit "s" "r") [] = some ([], none) :=
  ⟨guest_or_preview_noop false true 3 _ _ (Or.inl rfl),
   guest_or_preview_noop true false 3 _ _ (Or.inr ⟨rfl, rfl⟩)⟩

/-- C4 counterexample: with an out-of-range history_id the engine does
not fall back to the start-fresh path — it fails (app.py line 283
raises an IndexError), while the start-fresh path at the same input
produces a fresh single-page history with active index 0. -/
theorem invalid_history_id_no_fallback :
    processEvent false false 10 (.linkedVisit "s" "B" "A" (some 0) true) [] = none
    ∧ processEvent false false 10 (.linkedVisit "s" "B" "A" none true) []
        = some ([⟨"s", ["B"], 10⟩], some 0)
    ∧ (none : Option (List History × Option Nat))
        ≠ some ([⟨"s", ["B"], 10⟩], some 0) := by
  refine ⟨by decide, by decide, by decide⟩

/-- C4 amended: a linked visit whose history_id is out of range for the
collection makes the request fail (modelled as none); no fallback to
the start-fresh branch happens. -/
theorem invalid_history_id_raises (preview : Bool) (now : Nat)
    (story page_id prev_page_id : String) (forward : Bool)
    (hs : List History) (i : Nat) (hi : hs.length ≤ i) :
    processEvent preview false now
        (.linkedVisit story page_id prev_page_id (some i) forward) hs
      = none := by
  have hlt : ¬ i < hs.length := Nat.not_lt.mpr hi
  simp [processEvent, linkedVisitStep, hlt]

/-- Witness for the amended C4 at a concrete input. -/
theorem invalid_history_id_raises_witness :
    ([] : List History).length ≤ 0
    ∧ processEvent false false 10 (.linkedVisit "s" "B" "A" (some 0) true) []
        = none :=
  ⟨by decide,
   invalid_history_id_raises false 10 "s" "B" "A" true [] 0 (by decide)⟩

/-- C5: a linked visit with forward = false and a valid history_id
leaves the whole collection (in particular every pages sequence)
unchanged and returns the supplied index: the backward branch of app.py
lines 334-336 is pass, and the back-pointer block only reads. -/
theorem backward_visit_preserves_collection (preview : Bool) (now : Nat)
    (story page_id prev_page_id : String) (hs : List History) (i : Nat)
    (hi : i < hs.length) :
    processEvent preview false now
        (.linkedVisit story page_id prev_page_id (some i) false) hs
      = some (hs, some i) := by
  simp [processEvent, linkedVisitStep, hi]

/-- Witness for C5 at a concrete input. -/
theorem backward_visit_preserves_collection_witness :
    0 < ([⟨"s", ["A"], 1⟩] : List History).length
    ∧ processEvent false false 10 (.linkedVisit "s" "B" "A" (some 0) false)
        [⟨"s", ["A"], 1⟩] = some ([⟨"s", ["A"], 1⟩], some 0) :=
  ⟨by decide,
   backward_visit_preserves_collection false 10 "s" "B" "A" _ 0 (by decide)⟩

/-- C6 counterexample: an external visit on an empty collection appends
the new single-page record, but the GET branch (app.py line 373)
returns no history index at all, where the claim requires the new index
len - 1 = 0 to be returned as the active index. -/
theorem external_visit_returns_no_index :
    processEvent false false 10 (.externalVisit "s" "p") []
      = some ([⟨"s", ["p"], 10⟩], none)
    ∧ some ([(⟨"s", ["p"], 10⟩ : History)], (none : Option Nat))
        ≠ some ([⟨"s", ["p"], 10⟩], some 0) := by
  exact ⟨by decide, by decide⟩

/-- C6 amended: an external visit updates the collection exactly as the
root visit does but returns no active index; a root visit restamps the
unique matching single-page history and returns its index, or appends a
new record and returns the new last index when there is no match. -/
theorem root_external_visit_behavior (now : Nat) (story page_id : String)
    (hs : List History) (hne : ∀ h ∈ hs, h.pages ≠ []) :
    (processEvent false false now (.externalVisit story page_id) hs
       = some ((findOrCreateRoot now story page_id hs).1, none))
    ∧ ((∀ h ∈ hs, ¬ claimMatch story page_id h) →
        processEvent false false now (.rootVisit story page_id) hs
          = some (hs ++ [⟨story, [page_id], now⟩], some hs.length))
    ∧ (∀ (c₁ : List History) (hm : History) (c₂ : List History),
        hs = c₁ ++ hm :: c₂ → claimMatch story page_id hm →
        (∀ h ∈ c₁, ¬ claimMatch story page_id h) →
        (∀ h ∈ c₂, ¬ claimMatch story page_id h) →
        processEvent false false now (.rootVisit story page_id) hs
          = some (c₁ ++ {hm with last_updated := now} :: c₂,
                  some c₁.length)) := by
  refine ⟨?_, ?_, ?_⟩
  · simp [processEvent, externalVisitStep_eq]
  · intro hno
    simp only [processEvent, Bool.or_self, Bool.false_eq_true, if_false,
      Option.some.injEq]
    rw [findOrCreateRoot_nomatch now story page_id hs
      fun h hm hmm => hno h hm ((isRootMatch_iff story page_id h).mp hmm)]
  · intro c₁ hm c₂ hdec hmm h₁ h₂
    subst hdec
    simp only [processEvent, Bool.or_self, Bool.false_eq_true, if_false,
      Option.some.injEq]
    rw [findOrCreateRoot_unique now story page_id c₁ hm c₂
      ((isRootMatch_iff story page_id hm).mpr hmm)
      (fun h hmem hc => h₁ h hmem ((isRootMatch_iff story page_id h).mp hc))
      (fun h hmem hc => h₂ h hmem ((isRootMatch_iff story page_id h).mp hc))]

/-- Witness for the amended C6 at concrete inputs: all three arms. -/
theorem root_external_visit_behavior_witness :
    (processEvent false false 10 (.externalVisit "s" "p") [⟨"s", ["q"], 1⟩]
       = some ((findOrCreateRoot 10 "s" "p" [⟨"s", ["q"], 1⟩]).1, none))
    ∧ processEvent false false 10 (.rootVisit "s" "p") [⟨"s", ["q"], 1⟩]
       = some ([⟨"s", ["q"], 1⟩] ++ [⟨"s", ["p"], 10⟩], some 1)
    ∧ processEvent false false 7 (.rootVisit "s" "p")
        [⟨"x", ["p"], 1⟩, ⟨"s", ["p"], 2⟩]
       = some ([⟨"x", ["p"], 1⟩] ++ ⟨"s", ["p"], 7⟩ :: [], some 1) :=
  ⟨(root_external_visit_behavior 10 "s" "p" _ (by decide)).1,
   (root_external_visit_behavior 10 "s" "p" [⟨"s", ["q"], 1⟩]
      (by decide)).2.1 (by decide),
   (root_external_visit_behavior 7 "s" "p" _ (by decide)).2.2
      [⟨"x", ["p"], 1⟩] ⟨"s", ["p"], 2⟩ [] rfl (by decide) (by decide)
      (by decide)⟩

/-- Find-or-create preserves the record invariant: matches are only
restamped and the appended record has pages = [page_id]. -/
theorem Inv_findOrCreateRoot (now : Nat) (story page_id : String)
    (hs : List History) (hinv : Inv hs) :
    Inv (findOrCreateRoot now story page_id hs).1 := by
  rw [findOrCreateRoot_fst]
  have hmap : Inv (hs.map (rootUpd now story page_id)) := by
    intro h hmem
    rcases List.mem_map.mp hmem with ⟨h0, h0mem, rfl⟩
    rw [rootUpd_pages]
    exact hinv h0 h0mem
  split
  · exact hmap
  · intro h hmem
    rcases List.mem_append.mp hmem with hm | hm
    · exact hmap h hm
    · rcases List.mem_singleton.mp hm with rfl
      exact ⟨by simp, by simp⟩

/-- An equation between a some of a pair and some of a variable pair
yields the component equations. -/
theorem some_pair_eq {α β : Type} {x : α × β} {a : α} {b : β}
    (h : some x = some (a, b)) : a = x.1 ∧ b = x.2 := by
  cases Option.some.inj h
  exact ⟨rfl, rfl⟩

/-- The conditional return of the forward branch: if it returned a
value, that value is the merged pair. -/
theorem ite_some_pair {c : Prop} [Decidable c] {α β : Type} {x : α × β}
    {a : α} {b : β} (h : (if c then some x else none) = some (a, b)) :
    a = x.1 ∧ b = x.2 := by
  by_cases hc : c
  · rw [if_pos hc] at h
    exact some_pair_eq h
  · rw [if_neg hc] at h
    cases h

/-- C7: every engine operation preserves the invariant that each pages
sequence is non-empty and repeat-free: root/external/start-fresh visits
create singletons, a replay appends nothing, an extension appends only
a page not yet present, a fork copies a repeat-free prefix and appends
a page not yet present, and the merge pass never touches a surviving
record's pages. -/
theorem step_preserves_pages_invariant (preview guest : Bool) (now : Nat)
    (e : Event) (hs hs' : List History) (a : Option Nat)
    (hinv : Inv hs)
    (hstep : processEvent preview guest now e hs = some (hs', a)) :
    Inv hs' := by
  cases e with
  | rootVisit story page_id =>
    simp only [processEvent] at hstep
    rcases hpg : preview || guest with _ | _
    · rw [hpg, if_neg (by simp)] at hstep
      rcases some_pair_eq hstep with ⟨rfl, -⟩
      exact Inv_findOrCreateRoot now story page_id hs hinv
    · rw [hpg, if_pos rfl] at hstep
      rcases some_pair_eq hstep with ⟨rfl, -⟩
      exact hinv
  | externalVisit story page_id =>
    simp only [processEvent] at hstep
    rcases hpg : preview || guest with _ | _
    · rw [hpg, if_neg (by simp), externalVisitStep_eq] at hstep
      rcases some_pair_eq hstep with ⟨rfl, -⟩
      exact Inv_findOrCreateRoot now story page_id hs hinv
    · rw [hpg, if_pos rfl] at hstep
      rcases some_pair_eq hstep with ⟨rfl, -⟩
      exact hinv
  | linkedVisit story page_id prev_page_id history_id forward =>
    simp only [processEvent] at hstep
    rcases hg : guest with _ | _
    · rw [hg, if_neg (by simp)] at hstep
      match history_id with
      | none =>
        simp only [linkedVisitStep] at hstep
        rcases some_pair_eq hstep with ⟨rfl, -⟩
        exact Inv_findOrCreateRoot now story page_id hs hinv
      | some i =>
        simp only [linkedVisitStep] at hstep
        by_cases hi : i < hs.length
        · rw [dif_pos hi] at hstep
          rcases hf : forward with _ | _
          · rw [hf] at hstep
            simp only [Bool.false_eq_true, if_false] at hstep
            rcases some_pair_eq hstep with ⟨rfl, -⟩
            exact hinv
          · rw [hf] at hstep
            simp only [if_pos rfl] at hstep
            by_cases hmem : page_id ∈ hs[i].pages
            · rw [if_pos hmem] at hstep
              rcases some_pair_eq hstep with ⟨rfl, -⟩
              intro h hm
              rcases List.mem_or_eq_of_mem_set hm with hm2 | rfl
              · exact hinv h hm2
              · exact hinv hs[i] (List.getElem_mem hi)
            · rw [if_neg hmem] at hstep
              by_cases ht : hs[i].pages.getLast? = some prev_page_id
              · -- extension at the tip
                simp only [if_pos ht] at hstep
                have hpre : Inv (hs.set i
                    {hs[i] with pages := hs[i].pages ++ [page_id],
                                last_updated := now}) := by
                  intro h hm
                  rcases List.mem_or_eq_of_mem_set hm with hm2 | rfl
                  · exact hinv h hm2
                  · refine ⟨by simp, ?_⟩
                    show (hs[i].pages ++ [page_id]).Nodup
                    rw [← List.concat_eq_append]
                    exact List.Nodup.concat hmem (hinv hs[i] (List.getElem_mem hi)).2
                rcases ite_some_pair hstep with ⟨rfl, -⟩
                exact mergePass_pages (fun pg => pg ≠ [] ∧ pg.Nodup) now _ i hpre
              · -- fork
                simp only [if_neg ht] at hstep
                have hpre : Inv (hs ++ [⟨hs[i].story,
                    forkPages prev_page_id hs[i].pages ++ [page_id], now⟩]) := by
                  intro h hm
                  rcases List.mem_append.mp hm with hm2 | hm2
                  · exact hinv h hm2
                  · rcases List.mem_singleton.mp hm2 with rfl
                    refine ⟨by simp, ?_⟩
                    show (forkPages prev_page_id hs[i].pages ++ [page_id]).Nodup
                    rw [← List.concat_eq_append]
                    refine List.Nodup.concat ?_ ?_
                    · exact fun hc => hmem
                        ((forkPages_sublist prev_page_id hs[i].pages).mem hc)
                    · exact (forkPages_sublist prev_page_id hs[i].pages).nodup
                        (hinv hs[i] (List.getElem_mem hi)).2
                rcases ite_some_pair hstep with ⟨rfl, -⟩
                exact mergePass_pages (fun pg => pg ≠ [] ∧ pg.Nodup) now _
                  hs.length hpre
        · rw [dif_neg hi] at hstep
          cases hstep
    · rw [hg, if_pos rfl] at hstep
      rcases some_pair_eq hstep with ⟨rfl, -⟩
      exact hinv

/-- Witness for C7 at a concrete input (a fork step). -/
theorem step_preserves_pages_invariant_witness :
    Inv [⟨"s", ["A", "B", "C"], 1⟩]
    ∧ Inv [⟨"s", ["A", "B", "C"], 1⟩, ⟨"s", ["A", "B", "D"], 10⟩] :=
  ⟨by decide,
   step_preserves_pages_invariant false false 10
     (.linkedVisit "s" "D" "B" (some 0) true) [⟨"s", ["A", "B", "C"], 1⟩]
     [⟨"s", ["A", "B", "C"], 1⟩, ⟨"s", ["A", "B", "D"], 10⟩] (some 1)
     (by decide) (by decide)⟩

/-- The scan predicate and the claim predicate decide alike. -/
theorem decide_isRootMatch_eq_claimMatch (story page_id : String) :
    (fun h => decide (isRootMatch story page_id h))
      = (fun h => decide (claimMatch story page_id h)) :=
  funext fun h => decide_eq_decide.mpr (isRootMatch_iff story page_id h)

/-- Restamping a record does not change whether it matches. -/
theorem claimMatch_rootUpd (now : Nat) (story page_id : String)
    (h : History) :
    claimMatch story page_id (rootUpd now story page_id h)
      ↔ claimMatch story page_id h := by
  unfold rootUpd claimMatch
  split <;> exact Iff.rfl

/-- Restamping preserves the number of matching records. -/
theorem countP_map_rootUpd (now : Nat) (story page_id : String)
    (hs : List History) :
    (hs.map (rootUpd now story page_id)).countP
        (fun h => decide (claimMatch story page_id h))
      = hs.countP (fun h => decide (claimMatch story page_id h)) := by
  rw [List.countP_map]
  refine List.countP_congr fun h _ => ?_
  simp only [Function.comp_apply, decide_eq_true_eq]
  exact claimMatch_rootUpd now story page_id h

/-- Restamping does not change the pages of any record. -/
theorem map_pages_map_rootUpd (now : Nat) (story page_id : String)
    (hs : List History) :
    (hs.map (rootUpd now story page_id)).map History.pages
      = hs.map History.pages := by
  rw [List.map_map]
  exact List.map_congr_left fun h _ => rootUpd_pages now story page_id h

/-- C8: root visits are idempotent.  Starting from a collection obeying
the spec invariant (pages non-empty, at most one record for this story
with pages exactly the root page), after one root visit there is
exactly one matching record, and a second identical root visit leaves
exactly one matching record, the same number of records, every pages
sequence unchanged, and restamps the matching record with the second
timestamp. -/
theorem root_visit_idempotent (now₁ now₂ : Nat) (story page_id : String)
    (hs c₁ c₂ : List History) (a₁ a₂ : Option Nat)
    (hne : ∀ h ∈ hs, h.pages ≠ [])
    (huniq : hs.countP (fun h => decide (claimMatch story page_id h)) ≤ 1)
    (h1 : processEvent false false now₁ (.rootVisit story page_id) hs
            = some (c₁, a₁))
    (h2 : processEvent false false now₂ (.rootVisit story page_id) c₁
            = some (c₂, a₂)) :
    c₁.countP (fun h => decide (claimMatch story page_id h)) = 1
    ∧ c₂.countP (fun h => decide (claimMatch story page_id h)) = 1
    ∧ c₂.length = c₁.length
    ∧ c₂.map History.pages = c₁.map History.pages
    ∧ ∀ h ∈ c₂, claimMatch story page_id h → h.last_updated = now₂ := by
  simp only [processEvent, Bool.or_self, Bool.false_eq_true, if_false] at h1 h2
  rcases some_pair_eq h1 with ⟨he1, -⟩
  rcases some_pair_eq h2 with ⟨he2, -⟩
  have hcount1 : c₁.countP (fun h => decide (claimMatch story page_id h)) = 1 := by
    rw [he1, findOrCreateRoot_fst, decide_isRootMatch_eq_claimMatch]
    rcases hany : hs.any (fun h => decide (claimMatch story page_id h)) with _ | _
    · rw [if_neg (by simp), List.countP_append, countP_map_rootUpd]
      have h0 : hs.countP (fun h => decide (claimMatch story page_id h)) = 0 := by
        rw [List.countP_eq_zero]
        intro h hm hd
        have hex : hs.any (fun h => decide (claimMatch story page_id h)) = true :=
          List.any_eq_true.mpr ⟨h, hm, hd⟩
        rw [hany] at hex
        cases hex
      rw [h0]
      simp [List.countP_cons, claimMatch]
    · rw [if_pos rfl, countP_map_rootUpd]
      have hpos : 0 < hs.countP (fun h => decide (claimMatch story page_id h)) := by
        rw [List.countP_pos_iff]
        rcases List.any_eq_true.mp hany with ⟨h, hm, hd⟩
        exact ⟨h, hm, hd⟩
      omega
  have hany1 : c₁.any (fun h => decide (isRootMatch story page_id h)) = true := by
    rw [decide_isRootMatch_eq_claimMatch, List.any_eq_true]
    have hpos : 0 < c₁.countP (fun h => decide (claimMatch story page_id h)) := by
      omega
    exact List.countP_pos_iff.mp hpos
  have hc2m : c₂ = c₁.map (rootUpd now₂ story page_id) := by
    rw [he2, findOrCreateRoot_fst, if_pos hany1]
  refine ⟨hcount1, ?_, ?_, ?_, ?_⟩
  · rw [hc2m, countP_map_rootUpd]
    exact hcount1
  · rw [hc2m, List.length_map]
  · rw [hc2m, map_pages_map_rootUpd]
  · intro h hm hcm
    rw [hc2m] at hm
    rcases List.mem_map.mp hm with ⟨h0, h0mem, rfl⟩
    by_cases hm0 : isRootMatch story page_id h0
    · simp only [rootUpd, if_pos hm0]
    · simp only [rootUpd, if_neg hm0] at hcm
      exact absurd ((isRootMatch_iff story page_id h0).mpr hcm) hm0

/-- Witness for C8 at a concrete input. -/
theorem root_visit_idempotent_witness :
    (∀ h ∈ ([] : List History), h.pages ≠ [])
    ∧ ([] : List History).countP
        (fun h => decide (claimMatch "s" "p" h)) ≤ 1
    ∧ ([⟨"s", ["p"], 5⟩] : List History).countP
        (fun h => decide (claimMatch "s" "p" h)) = 1
    ∧ ([⟨"s", ["p"], 9⟩] : List History).countP
        (fun h => decide (claimMatch "s" "p" h)) = 1
    ∧ ([⟨"s", ["p"], 9⟩] : List History).length
        = ([⟨"s", ["p"], 5⟩] : List History).length
    ∧ ([⟨"s", ["p"], 9⟩] : List History).map History.pages
        = ([⟨"s", ["p"], 5⟩] : List History).map History.pages
    ∧ ∀ h ∈ ([⟨"s", ["p"], 9⟩] : List History),
        claimMatch "s" "p" h → h.last_updated = 9 :=
  ⟨by decide, by decide,
   root_visit_idempotent 5 9 "s" "p" [] [⟨"s", ["p"], 5⟩] [⟨"s", ["p"], 9⟩]
     (some 0) (some 0) (by decide) (by decide) (by decide) (by decide)⟩

/-- C9: a fork — forward linked visit where page_id is new to the
history and prev_page_id is an interior (non-tip) element — appends a
new record whose pages are the prefix of the original pages up to and
including prev_page_id with page_id appended, whose story is copied
from the original record; the original collection (hence the original
record) is untouched and the new record's index is returned as active.
The distinct-pages hypothesis says the collection (with the new record)
holds no duplicate pages sequences, so the merge pass is the identity;
it quantifies over the code's merge criterion, which compares pages
only. -/
theorem fork_appends_prefix_and_preserves_original (now : Nat)
    (story page_id prev_page_id : String) (hs : List History) (i : Nat)
    (hi : i < hs.length)
    (hpage : page_id ∉ hs[i].pages)
    (hprev_mem : prev_page_id ∈ hs[i].pages)
    (hprev_tip : hs[i].pages.getLast? ≠ some prev_page_id)
    (hdp : distinctPages (hs ++ [⟨hs[i].story,
        forkPages prev_page_id hs[i].pages ++ [page_id], now⟩])) :
    processEvent false false now
        (.linkedVisit story page_id prev_page_id (some i) true) hs
      = some (hs ++ [⟨hs[i].story,
          forkPages prev_page_id hs[i].pages ++ [page_id], now⟩],
          some hs.length)
    ∧ forkPages prev_page_id hs[i].pages
        = hs[i].pages.take
            (hs[i].pages.findIdx (fun p => decide (p = prev_page_id)) + 1) := by
  refine ⟨?_, forkPages_eq_take hprev_mem⟩
  simp only [processEvent, Bool.false_eq_true, if_false, linkedVisitStep]
  rw [dif_pos hi, if_true, if_neg hpage, if_neg hprev_tip]
  dsimp only
  rw [mergePass_id now _ hs.length hdp]
  simp [List.length_append]

/-- Witness for C9 at the spec's example: pages [A,B,C] forked at B
toward D yields the records [A,B,C] and [A,B,D]. -/
theorem fork_appends_prefix_witness :
    processEvent false false 10 (.linkedVisit "s" "D" "B" (some 0) true)
        [⟨"s", ["A", "B", "C"], 1⟩]
      = some ([⟨"s", ["A", "B", "C"], 1⟩] ++ [⟨"s", ["A", "B", "D"], 10⟩],
          some 1)
    ∧ (["A", "B"] : List String)
        = (["A", "B", "C"] : List String).take
            ((["A", "B", "C"] : List String).findIdx
              (fun p => decide (p = "B")) + 1) := by
  have h := fork_appends_prefix_and_preserves_original 10 "s" "D" "B"
    [⟨"s", ["A", "B", "C"], 1⟩] 0 (by decide) (by decide) (by decide)
    (by decide) (by decide)
  exact ⟨h.1, by decide⟩

/-- C10: a forward linked visit whose prev_page_id occurs nowhere in
the history's pages does not fail and does not truncate: the break of
the copy loop never fires, so the appended record's pages are the whole
original pages sequence with page_id appended (story copied from the
original), and the new index is returned as active. -/
theorem forward_unknown_prev_appends_whole_path (now : Nat)
    (story page_id prev_page_id : String) (hs : List History) (i : Nat)
    (hi : i < hs.length)
    (hpage : page_id ∉ hs[i].pages)
    (hprev : prev_page_id ∉ hs[i].pages)
    (hne : hs[i].pages ≠ [])
    (hdp : distinctPages (hs ++ [⟨hs[i].story,
        hs[i].pages ++ [page_id], now⟩])) :
    processEvent false false now
        (.linkedVisit story page_id prev_page_id (some i) true) hs
      = some (hs ++ [⟨hs[i].story, hs[i].pages ++ [page_id], now⟩],
          some hs.length) := by
  have htip : hs[i].pages.getLast? ≠ some prev_page_id := fun hl =>
    hprev (List.mem_of_getLast?_eq_some hl)
  have hfork : forkPages prev_page_id hs[i].pages = hs[i].pages :=
    forkPages_of_not_mem hprev
  simp only [processEvent, Bool.false_eq_true, if_false, linkedVisitStep]
  rw [dif_pos hi, if_true, if_neg hpage, if_neg htip]
  dsimp only
  rw [hfork, mergePass_id now _ hs.length hdp]
  simp [List.length_append]

/-- Witness for C10 at a concrete input: pages [A,B], prev Z unknown,
new record [A,B,D]. -/
theorem forward_unknown_prev_witness :
    processEvent false false 10 (.linkedVisit "s" "D" "Z" (some 0) true)
        [⟨"s", ["A", "B"], 1⟩]
      = some ([⟨"s", ["A", "B"], 1⟩] ++ [⟨"s", ["A", "B", "D"], 10⟩],
          some 1) :=
  forward_unknown_prev_appends_whole_path 10 "s" "D" "Z"
    [⟨"s", ["A", "B"], 1⟩] 0 (by decide) (by decide) (by decide)
    (by decide) (by decide)

end StoryEngine
